import Mathlib

/-!
A shallow embedding of the Connect Four engine of `src/connect4/main.py`
(board representation, legality checks, win detection, minimax search and
move commitment), together with theorems settling the specification claims.

Modelling conventions:
* A board cell holds a `Nat` mark: `0` = Empty, `1` = player one (human),
  `2` = player two (computer).  The Python source stores these values in a
  numpy array `board` of shape `(ROWS, COLUMNS)`, indexed `board[r][col]`
  with row `0` at the top; we model the grid as a total function
  `Nat → Nat → Nat` and only ever access indices `r < ROWS`, `col < COLUMNS`
  (the Python loops do the same).
* The Python functions mutate the process-wide global `board` in place;
  we pass the board explicitly and return updated boards.  `minimax` shadows
  the global with its parameter but every call site passes the global array
  itself, so functions it calls (`is_valid_move`) see the same board; the
  embedding therefore uses the single board argument throughout.
* Python floats appear only as the scores `float('inf')`, `float('-inf')`
  and the integer sentinels `-1000` / `1000`; comparisons and `max`/`min`
  on these are exact, so scores are embedded as the ordered type `Score`
  (`negInf`, integer, `posInf`) rather than floating point.
* The in-place speculative recursion of `minimax` is embedded by passing
  the board with the trial piece placed to the recursive call; the
  "restore before the next branch" discipline corresponds to each loop
  iteration receiving the unmodified parent board.
* Recursion in `minimax` terminates because each speculative placement
  fills an empty cell; the embedding makes this explicit with a fuel
  argument bounded below by the number of empty cells, and proves that any
  sufficient fuel yields the same value.
-/

def ROWS : Nat := 6

def COLUMNS : Nat := 7

/-- A board: the mark stored at row `r` (top-to-bottom), column `c`. -/
def Board : Type := Nat → Nat → Nat

/-- `np.zeros((ROWS, COLUMNS))`: the all-Empty board. -/
def emptyBoard : Board := fun _ _ => 0

/-- In-place cell assignment `board[row][col] = v`, as a functional update. -/
def updateBoard (b : Board) (row col v : Nat) : Board :=
  fun r c => if r = row ∧ c = col then v else b r c

/-- Build a board from a row-major list of rows (for concrete test positions). -/
def mkBoard (rows : List (List Nat)) : Board :=
  fun r c => (rows.getD r []).getD c 0

/-- `get_next_open_row(board, col)`: scan rows from the bottom
(`range(ROWS - 1, -1, -1)`) and return the first row whose cell in `col`
is Empty, or `None` if the column is full. -/
def get_next_open_row (b : Board) (col : Nat) : Option Nat :=
  (List.range ROWS).reverse.find? (fun r => b r col == 0)

/-- `mark_square(col, player)`: place `player`'s mark at the next open row of
`col`; silently a no-op when the column is full. -/
def mark_square (b : Board) (col player : Nat) : Board :=
  match get_next_open_row b col with
  | some row => updateBoard b row col player
  | none => b

/-- `is_valid_move(col)`: the move is valid iff the top-row cell is Empty.
(The Python source performs no bounds check on `col`; this definition is the
behaviour for `0 ≤ col < COLUMNS`, which is what every internal caller
passes.  `is_valid_move_int` below models the raw numpy indexing for
arbitrary integer `col`.) -/
def is_valid_move (b : Board) (col : Nat) : Bool :=
  b 0 col == 0

/-- `is_board_full(board)`: no column has an Empty top-row cell. -/
def is_board_full (b : Board) : Bool :=
  (List.range COLUMNS).all (fun c => !(b 0 c == 0))

/-- `check_win(player, check_board)`: scan for four of `player`'s marks in a
row — horizontally, vertically, on positively sloped diagonals and on
negatively sloped diagonals — mirroring the four nested loops of the source
(`range(ROWS)` × `range(COLUMNS-3)`, `range(COLUMNS)` × `range(ROWS-3)`,
`range(ROWS-3)` × `range(COLUMNS-3)`, `range(3, ROWS)` × `range(COLUMNS-3)`). -/
def check_win (player : Nat) (b : Board) : Bool :=
  ((List.range ROWS).any fun r => (List.range (COLUMNS - 3)).any fun c =>
      b r c == player && b r (c+1) == player &&
      b r (c+2) == player && b r (c+3) == player) ||
  ((List.range COLUMNS).any fun c => (List.range (ROWS - 3)).any fun r =>
      b r c == player && b (r+1) c == player &&
      b (r+2) c == player && b (r+3) c == player) ||
  ((List.range (ROWS - 3)).any fun r => (List.range (COLUMNS - 3)).any fun c =>
      b r c == player && b (r+1) (c+1) == player &&
      b (r+2) (c+2) == player && b (r+3) (c+3) == player) ||
  ((List.range' 3 (ROWS - 3)).any fun r => (List.range (COLUMNS - 3)).any fun c =>
      b r c == player && b (r-1) (c+1) == player &&
      b (r-2) (c+2) == player && b (r-3) (c+3) == player)

/-- `restart_game()`: rebinds the global `board` to a fresh `np.zeros` array. -/
def restart_game : Board := emptyBoard

/-- The score lattice actually used by the search: `float('-inf')`, exact
integers (`0`, and the sentinels `-1000` / `1000`), and `float('inf')`.
Comparisons on these float values are exact, so the embedding is faithful. -/
inductive Score : Type where
  | negInf : Score
  | num : Int → Score
  | posInf : Score
deriving DecidableEq, Repr

/-- Python `<=` on the embedded scores. -/
def Score.ble : Score → Score → Bool
  | .negInf, _ => true
  | .num _, .negInf => false
  | .num m, .num n => decide (m ≤ n)
  | .num _, .posInf => true
  | .posInf, .posInf => true
  | .posInf, _ => false

/-- Python `<` on the embedded scores (`a < b` iff not `b <= a`). -/
def Score.blt (a b : Score) : Bool := !(Score.ble b a)

/-- Python `max(a, b)` (returns `a` when the two compare equal). -/
def Score.max (a b : Score) : Score := if Score.ble b a then a else b

/-- Python `min(a, b)` (returns `a` when the two compare equal). -/
def Score.min (a b : Score) : Score := if Score.ble a b then a else b

/-- Number of Empty cells on the playing grid; the termination measure of the
speculative search. -/
def emptyCount (b : Board) : Nat :=
  (Finset.univ.filter (fun p : Fin ROWS × Fin COLUMNS => b p.1 p.2 = 0)).card

/-- `minimax(board, depth, is_maximizing)`, with an explicit structural fuel.
Each recursive call of the source fills one empty cell, so any fuel at least
`emptyCount b` gives the value computed by the Python function
(`minimaxFuel_congr` below); the `fuel = 0` fallback is unreachable then.
The maximizing loop places `2` and folds `max(score, best_score)` starting
from `-1000`; the minimizing loop places `1` and folds `min` from `1000`. -/
def minimaxFuel : Nat → Board → Nat → Bool → Score
  | 0, b, _, _ =>
    if check_win 2 b then Score.posInf
    else if check_win 1 b then Score.negInf
    else if is_board_full b then Score.num 0
    else Score.num 0
  | fuel + 1, b, depth, is_maximizing =>
    if check_win 2 b then Score.posInf
    else if check_win 1 b then Score.negInf
    else if is_board_full b then Score.num 0
    else if is_maximizing then
      (List.range COLUMNS).foldl
        (fun best_score col =>
          if is_valid_move b col then
            match get_next_open_row b col with
            | some row =>
              Score.max (minimaxFuel fuel (updateBoard b row col 2) (depth + 1) false)
                best_score
            | none => best_score
          else best_score)
        (Score.num (-1000))
    else
      (List.range COLUMNS).foldl
        (fun best_score col =>
          if is_valid_move b col then
            match get_next_open_row b col with
            | some row =>
              Score.min (minimaxFuel fuel (updateBoard b row col 1) (depth + 1) true)
                best_score
            | none => best_score
          else best_score)
        (Score.num 1000)

/-- `minimax(board, depth, is_maximizing)`: the fuel `ROWS * COLUMNS` bounds
`emptyCount` of every board, hence is always sufficient. -/
def minimax (b : Board) (depth : Nat) (is_maximizing : Bool) : Score :=
  minimaxFuel (ROWS * COLUMNS) b depth is_maximizing

/-- The `if score > best_score: best_score, move = score, col` update of
`best_move`'s loop. -/
def bmUpdate (acc : Score × Option Nat) (score : Score) (col : Nat) :
    Score × Option Nat :=
  if Score.blt acc.1 score then (score, some col) else acc

/-- `best_move()`: returns the success flag together with the board after the
committed move (the Python function mutates the global board and returns a
bool).  Mirrors the source: bail out on a full board, scan all columns,
speculatively place `2`, score with `minimax(board, 0, False)`, retract, keep
the strictly best column, finally `mark_square(move, 2)` when one was found. -/
def best_move (b : Board) : Bool × Board :=
  if is_board_full b then (false, b)
  else
    let r := (List.range COLUMNS).foldl
      (fun acc col =>
        if is_valid_move b col then
          bmUpdate acc (minimax (mark_square b col 2) 0 false) col
        else acc)
      (Score.num (-1000), (none : Option Nat))
    match r.2 with
    | some mv => (true, mark_square b mv 2)
    | none => (false, b)

/-- The columns `best_move` / the `minimax` loops actually try: the valid
columns in left-to-right order. -/
def validCols (b : Board) : List Nat :=
  (List.range COLUMNS).filter (fun col => is_valid_move b col)

/-- The recursively computed child scores of a `minimax` node, in column
order: the current side's mark is placed in each valid column and the
position is scored for the other side at depth `d + 1`. -/
def childScores (b : Board) (d : Nat) (is_maximizing : Bool) : List Score :=
  (validCols b).map (fun col =>
    minimax (mark_square b col (if is_maximizing then 2 else 1)) (d + 1)
      (!is_maximizing))

/-! ### Order lemmas for `Score` -/

theorem Score.ble_refl (a : Score) : Score.ble a a = true := by
  cases a <;> simp [Score.ble]

theorem Score.ble_total (a b : Score) :
    Score.ble a b = true ∨ Score.ble b a = true := by
  cases a <;> cases b <;> simp [Score.ble] <;> omega

theorem Score.ble_trans {a b c : Score} (h1 : Score.ble a b = true)
    (h2 : Score.ble b c = true) : Score.ble a c = true := by
  cases a <;> cases b <;> cases c <;> simp_all [Score.ble] <;> omega

theorem Score.ble_of_not_ble {a b : Score} (h : ¬ Score.ble a b = true) :
    Score.ble b a = true := by
  rcases Score.ble_total a b with h' | h'
  · exact absurd h' h
  · exact h'

theorem Score.ble_max_left (a b : Score) :
    Score.ble a (Score.max a b) = true := by
  unfold Score.max
  split
  · exact Score.ble_refl a
  · next h => exact Score.ble_of_not_ble h

theorem Score.ble_max_right (a b : Score) :
    Score.ble b (Score.max a b) = true := by
  unfold Score.max
  split
  · next h => exact h
  · exact Score.ble_refl b

theorem Score.max_eq_or (a b : Score) :
    Score.max a b = a ∨ Score.max a b = b := by
  unfold Score.max
  split
  · exact Or.inl rfl
  · exact Or.inr rfl

theorem Score.min_ble_left (a b : Score) :
    Score.ble (Score.min a b) a = true := by
  unfold Score.min
  split
  · exact Score.ble_refl a
  · next h => exact Score.ble_of_not_ble h

theorem Score.min_ble_right (a b : Score) :
    Score.ble (Score.min a b) b = true := by
  unfold Score.min
  split
  · next h => exact h
  · exact Score.ble_refl b

theorem Score.min_eq_or (a b : Score) :
    Score.min a b = a ∨ Score.min a b = b := by
  unfold Score.min
  split
  · exact Or.inl rfl
  · exact Or.inr rfl

/-! ### Generic lemmas about the loop shapes of the source -/

/-- A loop `for col in range(..): if p col: acc = g acc col` is the same as
folding `g` over the filtered list. -/
theorem foldl_if_filter {σ : Type} (p : Nat → Bool) (g : σ → Nat → σ) :
    ∀ (l : List Nat) (a : σ),
      l.foldl (fun acc c => if p c then g acc c else acc) a
        = (l.filter p).foldl g a := by
  intro l
  induction l with
  | nil => intro a; rfl
  | cons x xs ih =>
    intro a
    by_cases hx : p x = true
    · simp [List.filter_cons, hx, List.foldl_cons, ih]
    · simp [List.filter_cons, hx, List.foldl_cons, ih]

/-- Folding `max` accumulates an upper bound of the initial accumulator. -/
theorem foldl_max_init :
    ∀ (l : List Score) (a : Score),
      Score.ble a (l.foldl (fun acc t => Score.max t acc) a) = true := by
  intro l
  induction l with
  | nil => intro a; exact Score.ble_refl a
  | cons x xs ih =>
    intro a
    simp only [List.foldl_cons]
    exact Score.ble_trans (Score.ble_max_right x a) (ih (Score.max x a))

/-- Folding `max` accumulates an upper bound of every list element. -/
theorem foldl_max_ub :
    ∀ (l : List Score) (a s : Score), s ∈ l →
      Score.ble s (l.foldl (fun acc t => Score.max t acc) a) = true := by
  intro l
  induction l with
  | nil => intro a s hs; cases hs
  | cons x xs ih =>
    intro a s hs
    rcases List.mem_cons.mp hs with h | h
    · subst h
      simp only [List.foldl_cons]
      exact Score.ble_trans (Score.ble_max_left s a) (foldl_max_init xs (Score.max s a))
    · exact ih (Score.max x a) s h

/-- The value of a `max` fold is the initial accumulator or a list element. -/
theorem foldl_max_mem :
    ∀ (l : List Score) (a : Score),
      l.foldl (fun acc t => Score.max t acc) a = a
        ∨ l.foldl (fun acc t => Score.max t acc) a ∈ l := by
  intro l
  induction l with
  | nil => intro a; exact Or.inl rfl
  | cons x xs ih =>
    intro a
    simp only [List.foldl_cons]
    rcases ih (Score.max x a) with h | h
    · rw [h]
      rcases Score.max_eq_or x a with h' | h'
      · rw [h']; exact Or.inr (List.mem_cons_self x xs)
      · rw [h']; exact Or.inl rfl
    · exact Or.inr (List.mem_cons_of_mem x h)

/-- Folding `min` accumulates a lower bound of the initial accumulator. -/
theorem foldl_min_init :
    ∀ (l : List Score) (a : Score),
      Score.ble (l.foldl (fun acc t => Score.min t acc) a) a = true := by
  intro l
  induction l with
  | nil => intro a; exact Score.ble_refl a
  | cons x xs ih =>
    intro a
    simp only [List.foldl_cons]
    exact Score.ble_trans (ih (Score.min x a)) (Score.min_ble_right x a)

/-- Folding `min` accumulates a lower bound of every list element. -/
theorem foldl_min_lb :
    ∀ (l : List Score) (a s : Score), s ∈ l →
      Score.ble (l.foldl (fun acc t => Score.min t acc) a) s = true := by
  intro l
  induction l with
  | nil => intro a s hs; cases hs
  | cons x xs ih =>
    intro a s hs
    rcases List.mem_cons.mp hs with h | h
    · subst h
      simp only [List.foldl_cons]
      exact Score.ble_trans (foldl_min_init xs (Score.min s a)) (Score.min_ble_left s a)
    · exact ih (Score.min x a) s h

/-- The value of a `min` fold is the initial accumulator or a list element. -/
theorem foldl_min_mem :
    ∀ (l : List Score) (a : Score),
      l.foldl (fun acc t => Score.min t acc) a = a
        ∨ l.foldl (fun acc t => Score.min t acc) a ∈ l := by
  intro l
  induction l with
  | nil => intro a; exact Or.inl rfl
  | cons x xs ih =>
    intro a
    simp only [List.foldl_cons]
    rcases ih (Score.min x a) with h | h
    · rw [h]
      rcases Score.min_eq_or x a with h' | h'
      · rw [h']; exact Or.inr (List.mem_cons_self x xs)
      · rw [h']; exact Or.inl rfl
    · exact Or.inr (List.mem_cons_of_mem x h)

/-! ### Facts about the board primitives -/

/-- A successful bottom-up scan returns an in-range row whose cell is Empty. -/
theorem gnor_some_prop {b : Board} {col row : Nat}
    (h : get_next_open_row b col = some row) : row < ROWS ∧ b row col = 0 := by
  unfold get_next_open_row at h
  have hmem := List.mem_of_find?_eq_some h
  have hpred := List.find?_some h
  rw [List.mem_reverse, List.mem_range] at hmem
  exact ⟨hmem, by simpa using hpred⟩

/-- If the top cell of a column is Empty, the bottom-up scan succeeds. -/
theorem gnor_exists_of_valid {b : Board} {col : Nat}
    (h : is_valid_move b col = true) :
    ∃ row, get_next_open_row b col = some row := by
  unfold is_valid_move at h
  rcases hfind : get_next_open_row b col with _ | row
  · exfalso
    unfold get_next_open_row at hfind
    rw [List.find?_eq_none] at hfind
    exact hfind 0 (by simp [List.mem_reverse, List.mem_range, ROWS]) (by simpa using h)
  · exact ⟨row, rfl⟩

/-- A valid column witnesses that the board is not full. -/
theorem not_full_of_valid {b : Board} {col : Nat} (hcol : col < COLUMNS)
    (h : is_valid_move b col = true) : is_board_full b = false := by
  unfold is_valid_move at h
  rcases hfull : is_board_full b with _ | _
  · rfl
  · exfalso
    unfold is_board_full at hfull
    rw [List.all_eq_true] at hfull
    have := hfull col (List.mem_range.mpr hcol)
    simp at this
    simp [this] at h

/-- A board with no Empty cell is full. -/
theorem full_of_emptyCount_zero {b : Board} (h : emptyCount b = 0) :
    is_board_full b = true := by
  unfold is_board_full
  rw [List.all_eq_true]
  intro c hc
  rw [List.mem_range] at hc
  unfold emptyCount at h
  rw [Finset.card_eq_zero] at h
  by_contra hne
  simp only [Bool.not_eq_true, Bool.not_not] at hne
  have hc0 : b 0 c = 0 := by simpa using hne
  have hmem : (⟨⟨0, by norm_num [ROWS]⟩, ⟨c, hc⟩⟩ : Fin ROWS × Fin COLUMNS) ∈
      Finset.univ.filter (fun p : Fin ROWS × Fin COLUMNS => b p.1 p.2 = 0) := by
    refine Finset.mem_filter.mpr ⟨Finset.mem_univ _, ?_⟩
    simpa [ROWS] using hc0
  rw [h] at hmem
  exact absurd hmem (Finset.not_mem_empty _)

/-- At most `ROWS * COLUMNS` cells are Empty. -/
theorem emptyCount_le (b : Board) : emptyCount b ≤ ROWS * COLUMNS := by
  unfold emptyCount
  calc (Finset.univ.filter (fun p : Fin ROWS × Fin COLUMNS => b p.1 p.2 = 0)).card
      ≤ (Finset.univ : Finset (Fin ROWS × Fin COLUMNS)).card := Finset.card_filter_le _ _
    _ = ROWS * COLUMNS := by simp [Finset.card_univ]

/-- Placing a nonzero mark on an Empty in-range cell strictly decreases the
number of Empty cells. -/
theorem emptyCount_update_lt {b : Board} {row col p : Nat}
    (hr : row < ROWS) (hc : col < COLUMNS) (h0 : b row col = 0) (hp : p ≠ 0) :
    emptyCount (updateBoard b row col p) < emptyCount b := by
  unfold emptyCount
  apply Finset.card_lt_card
  rw [Finset.ssubset_iff_of_subset]
  · refine ⟨⟨⟨row, hr⟩, ⟨col, hc⟩⟩, ?_, ?_⟩
    · exact Finset.mem_filter.mpr ⟨Finset.mem_univ _, h0⟩
    · intro hmem
      have := (Finset.mem_filter.mp hmem).2
      simp [updateBoard] at this
      exact hp this
  · intro q hq
    have hq0 := (Finset.mem_filter.mp hq).2
    refine Finset.mem_filter.mpr ⟨Finset.mem_univ _, ?_⟩
    simp only [updateBoard] at hq0
    by_cases hcase : (q.1 : Nat) = row ∧ (q.2 : Nat) = col
    · rw [if_pos hcase] at hq0
      exact absurd hq0 hp
    · rwa [if_neg hcase] at hq0

/-! ### Fuel and depth do not matter for `minimaxFuel` -/

theorem minimaxFuel_win2 {b : Board} (h : check_win 2 b = true) :
    ∀ f d m, minimaxFuel f b d m = Score.posInf := by
  intro f d m
  cases f <;> simp [minimaxFuel, h]

theorem minimaxFuel_win1 {b : Board} (h2 : check_win 2 b = false)
    (h1 : check_win 1 b = true) :
    ∀ f d m, minimaxFuel f b d m = Score.negInf := by
  intro f d m
  cases f <;> simp [minimaxFuel, h2, h1]

theorem minimaxFuel_full {b : Board} (h2 : check_win 2 b = false)
    (h1 : check_win 1 b = false) (hf : is_board_full b = true) :
    ∀ f d m, minimaxFuel f b d m = Score.num 0 := by
  intro f d m
  cases f <;> simp [minimaxFuel, h2, h1, hf]

/-- Unfolding of a non-terminal maximizing node. -/
theorem minimaxFuel_succ_max {b : Board} (k d : Nat)
    (h2 : check_win 2 b = false) (h1 : check_win 1 b = false)
    (hf : is_board_full b = false) :
    minimaxFuel (k + 1) b d true
      = (List.range COLUMNS).foldl
          (fun best_score col =>
            if is_valid_move b col then
              match get_next_open_row b col with
              | some row =>
                Score.max (minimaxFuel k (updateBoard b row col 2) (d + 1) false)
                  best_score
              | none => best_score
            else best_score)
          (Score.num (-1000)) := by
  simp [minimaxFuel, h2, h1, hf]

/-- Unfolding of a non-terminal minimizing node. -/
theorem minimaxFuel_succ_min {b : Board} (k d : Nat)
    (h2 : check_win 2 b = false) (h1 : check_win 1 b = false)
    (hf : is_board_full b = false) :
    minimaxFuel (k + 1) b d false
      = (List.range COLUMNS).foldl
          (fun best_score col =>
            if is_valid_move b col then
              match get_next_open_row b col with
              | some row =>
                Score.min (minimaxFuel k (updateBoard b row col 1) (d + 1) true)
                  best_score
              | none => best_score
            else best_score)
          (Score.num 1000) := by
  simp [minimaxFuel, h2, h1, hf]

/-- The value of the search is independent of both the fuel (as long as it is
at least the number of Empty cells, which bounds the recursion) and the
`depth` argument (which the source threads through but never uses). -/
theorem minimaxFuel_congr :
    ∀ (f1 : Nat) (f2 : Nat) (b : Board) (d1 d2 : Nat) (m : Bool),
      emptyCount b ≤ f1 → emptyCount b ≤ f2 →
      minimaxFuel f1 b d1 m = minimaxFuel f2 b d2 m := by
  intro f1
  induction f1 with
  | zero =>
    intro f2 b d1 d2 m h1 h2
    have hfull : is_board_full b = true :=
      full_of_emptyCount_zero (Nat.le_zero.mp h1)
    rcases hcw2 : check_win 2 b with _ | _
    · rcases hcw1 : check_win 1 b with _ | _
      · rw [minimaxFuel_full hcw2 hcw1 hfull, minimaxFuel_full hcw2 hcw1 hfull]
      · rw [minimaxFuel_win1 hcw2 hcw1, minimaxFuel_win1 hcw2 hcw1]
    · rw [minimaxFuel_win2 hcw2, minimaxFuel_win2 hcw2]
  | succ k ih =>
    intro f2 b d1 d2 m h1 h2
    rcases hcw2 : check_win 2 b with _ | _
    swap
    · rw [minimaxFuel_win2 hcw2, minimaxFuel_win2 hcw2]
    rcases hcw1 : check_win 1 b with _ | _
    swap
    · rw [minimaxFuel_win1 hcw2 hcw1, minimaxFuel_win1 hcw2 hcw1]
    rcases hfull : is_board_full b with _ | _
    swap
    · rw [minimaxFuel_full hcw2 hcw1 hfull, minimaxFuel_full hcw2 hcw1 hfull]
    have hpos : 0 < emptyCount b := by
      rcases Nat.eq_zero_or_pos (emptyCount b) with h0 | h0
      · rw [full_of_emptyCount_zero h0] at hfull; cases hfull
      · exact h0
    rcases f2 with _ | k2
    · omega
    have hchild : ∀ (col row player : Nat), col < COLUMNS → player ≠ 0 →
        get_next_open_row b col = some row →
        emptyCount (updateBoard b row col player) ≤ k ∧
        emptyCount (updateBoard b row col player) ≤ k2 := by
      intro col row player hcol hplayer hrow
      obtain ⟨hr, h0⟩ := gnor_some_prop hrow
      have := emptyCount_update_lt hr hcol h0 hplayer
      omega
    cases m
    · rw [minimaxFuel_succ_min k d1 hcw2 hcw1 hfull,
        minimaxFuel_succ_min k2 d2 hcw2 hcw1 hfull]
      apply List.foldl_ext
      intro acc col hcol
      rw [List.mem_range] at hcol
      by_cases hvalid : is_valid_move b col = true
      · rw [if_pos hvalid, if_pos hvalid]
        rcases hrow : get_next_open_row b col with _ | row
        · rfl
        · show Score.min (minimaxFuel k (updateBoard b row col 1) (d1 + 1) true) acc
            = Score.min (minimaxFuel k2 (updateBoard b row col 1) (d2 + 1) true) acc
          obtain ⟨hk, hk2⟩ := hchild col row 1 hcol (by omega) hrow
          rw [ih k2 (updateBoard b row col 1) (d1 + 1) (d2 + 1) true hk hk2]
      · rw [if_neg hvalid, if_neg hvalid]
    · rw [minimaxFuel_succ_max k d1 hcw2 hcw1 hfull,
        minimaxFuel_succ_max k2 d2 hcw2 hcw1 hfull]
      apply List.foldl_ext
      intro acc col hcol
      rw [List.mem_range] at hcol
      by_cases hvalid : is_valid_move b col = true
      · rw [if_pos hvalid, if_pos hvalid]
        rcases hrow : get_next_open_row b col with _ | row
        · rfl
        · show Score.max (minimaxFuel k (updateBoard b row col 2) (d1 + 1) false) acc
            = Score.max (minimaxFuel k2 (updateBoard b row col 2) (d2 + 1) false) acc
          obtain ⟨hk, hk2⟩ := hchild col row 2 hcol (by omega) hrow
          rw [ih k2 (updateBoard b row col 2) (d1 + 1) (d2 + 1) false hk hk2]
      · rw [if_neg hvalid, if_neg hvalid]

/-- `minimax` never depends on the `depth` argument. -/
theorem minimax_depth_congr (b : Board) (d1 d2 : Nat) (m : Bool) :
    minimax b d1 m = minimax b d2 m :=
  minimaxFuel_congr _ _ b d1 d2 m (emptyCount_le b) (emptyCount_le b)


/-- Membership in the scanned column list. -/
theorem mem_validCols {b : Board} {c : Nat} :
    c ∈ validCols b ↔ c < COLUMNS ∧ is_valid_move b c = true := by
  unfold validCols
  rw [List.mem_filter, List.mem_range]

/-! ### The loops of `minimax` as folds over the valid columns -/

/-- A non-terminal maximizing node folds `max` over its child scores,
starting from the `-1000` sentinel. -/
theorem minimax_max_node {b : Board} (d : Nat)
    (h2 : check_win 2 b = false) (h1 : check_win 1 b = false)
    (hf : is_board_full b = false) :
    minimax b d true
      = (childScores b d true).foldl (fun acc t => Score.max t acc)
          (Score.num (-1000)) := by
  have hRC : ROWS * COLUMNS = 41 + 1 := rfl
  unfold minimax
  rw [hRC, minimaxFuel_succ_max 41 d h2 h1 hf]
  refine Eq.trans (foldl_if_filter (fun col => is_valid_move b col)
    (fun acc col =>
      match get_next_open_row b col with
      | some row =>
        Score.max (minimaxFuel 41 (updateBoard b row col 2) (d + 1) false) acc
      | none => acc)
    (List.range COLUMNS) (Score.num (-1000))) ?_
  unfold childScores
  rw [List.foldl_map]
  apply List.foldl_ext
  intro acc col hcol
  obtain ⟨hcrange, hvalid⟩ := mem_validCols.mp hcol
  obtain ⟨row, hrow⟩ := gnor_exists_of_valid hvalid
  obtain ⟨hr, h0⟩ := gnor_some_prop hrow
  show (match get_next_open_row b col with
      | some row =>
        Score.max (minimaxFuel 41 (updateBoard b row col 2) (d + 1) false) acc
      | none => acc)
    = Score.max (minimax (mark_square b col 2) (d + 1) false) acc
  rw [hrow]
  show Score.max (minimaxFuel 41 (updateBoard b row col 2) (d + 1) false) acc
    = Score.max (minimax (mark_square b col 2) (d + 1) false) acc
  have hmark : mark_square b col 2 = updateBoard b row col 2 := by
    unfold mark_square
    rw [hrow]
  rw [hmark]
  unfold minimax
  have hlt := emptyCount_update_lt hr hcrange h0 (show (2 : Nat) ≠ 0 by omega)
  have hle := emptyCount_le b
  have h42 : ROWS * COLUMNS = 42 := rfl
  rw [minimaxFuel_congr 41 (ROWS * COLUMNS) (updateBoard b row col 2)
    (d + 1) (d + 1) false (by omega) (by omega)]

/-- A non-terminal minimizing node folds `min` over its child scores,
starting from the `1000` sentinel. -/
theorem minimax_min_node {b : Board} (d : Nat)
    (h2 : check_win 2 b = false) (h1 : check_win 1 b = false)
    (hf : is_board_full b = false) :
    minimax b d false
      = (childScores b d false).foldl (fun acc t => Score.min t acc)
          (Score.num 1000) := by
  have hRC : ROWS * COLUMNS = 41 + 1 := rfl
  unfold minimax
  rw [hRC, minimaxFuel_succ_min 41 d h2 h1 hf]
  refine Eq.trans (foldl_if_filter (fun col => is_valid_move b col)
    (fun acc col =>
      match get_next_open_row b col with
      | some row =>
        Score.min (minimaxFuel 41 (updateBoard b row col 1) (d + 1) true) acc
      | none => acc)
    (List.range COLUMNS) (Score.num 1000)) ?_
  unfold childScores
  rw [List.foldl_map]
  apply List.foldl_ext
  intro acc col hcol
  obtain ⟨hcrange, hvalid⟩ := mem_validCols.mp hcol
  obtain ⟨row, hrow⟩ := gnor_exists_of_valid hvalid
  obtain ⟨hr, h0⟩ := gnor_some_prop hrow
  show (match get_next_open_row b col with
      | some row =>
        Score.min (minimaxFuel 41 (updateBoard b row col 1) (d + 1) true) acc
      | none => acc)
    = Score.min (minimax (mark_square b col 1) (d + 1) true) acc
  rw [hrow]
  show Score.min (minimaxFuel 41 (updateBoard b row col 1) (d + 1) true) acc
    = Score.min (minimax (mark_square b col 1) (d + 1) true) acc
  have hmark : mark_square b col 1 = updateBoard b row col 1 := by
    unfold mark_square
    rw [hrow]
  rw [hmark]
  unfold minimax
  have hlt := emptyCount_update_lt hr hcrange h0 (show (1 : Nat) ≠ 0 by omega)
  have hle := emptyCount_le b
  have h42 : ROWS * COLUMNS = 42 := rfl
  rw [minimaxFuel_congr 41 (ROWS * COLUMNS) (updateBoard b row col 1)
    (d + 1) (d + 1) true (by omega) (by omega)]

/-! ### The column-selection loop of `best_move` -/

/-- `best_move` on a non-full board, with its loop re-expressed as a fold
over the valid columns. -/
theorem best_move_eq {b : Board} (hf : is_board_full b = false) :
    best_move b =
      match ((validCols b).foldl
          (fun acc col => bmUpdate acc (minimax (mark_square b col 2) 0 false) col)
          (Score.num (-1000), (none : Option Nat))).2 with
      | some mv => (true, mark_square b mv 2)
      | none => (false, b) := by
  unfold best_move
  rw [if_neg (by rw [hf]; exact Bool.false_ne_true)]
  rw [show ((List.range COLUMNS).foldl
      (fun acc col =>
        if is_valid_move b col then
          bmUpdate acc (minimax (mark_square b col 2) 0 false) col
        else acc)
      (Score.num (-1000), (none : Option Nat)))
    = ((validCols b).foldl
        (fun acc col => bmUpdate acc (minimax (mark_square b col 2) 0 false) col)
        (Score.num (-1000), (none : Option Nat))) from
    foldl_if_filter (fun col => is_valid_move b col)
      (fun acc col => bmUpdate acc (minimax (mark_square b col 2) 0 false) col)
      (List.range COLUMNS) (Score.num (-1000), none)]

/-- If no scanned score strictly beats the running best, the loop state is
unchanged. -/
theorem bmFold_no_update (sc : Nat → Score) :
    ∀ (l : List Nat) (a : Score × Option Nat),
      (∀ c ∈ l, Score.blt a.1 (sc c) = false) →
      l.foldl (fun acc col => bmUpdate acc (sc col) col) a = a := by
  intro l
  induction l with
  | nil => intro a _; rfl
  | cons x xs ih =>
    intro a h
    simp only [List.foldl_cons]
    rw [show bmUpdate a (sc x) x = a from by
      simp [bmUpdate, h x (List.mem_cons_self x xs)]]
    exact ih a (fun c hc => h c (List.mem_cons_of_mem x hc))

/-- Once a column has been recorded, the loop always has a recorded column. -/
theorem bmFold_some (sc : Nat → Score) :
    ∀ (l : List Nat) (a : Score × Option Nat), a.2 ≠ none →
      (l.foldl (fun acc col => bmUpdate acc (sc col) col) a).2 ≠ none := by
  intro l
  induction l with
  | nil => intro a h; exact h
  | cons x xs ih =>
    intro a h
    simp only [List.foldl_cons]
    apply ih
    unfold bmUpdate
    split
    · simp
    · exact h

/-- The recorded column is the initial one or one of the scanned columns. -/
theorem bmFold_origin (sc : Nat → Score) :
    ∀ (l : List Nat) (a : Score × Option Nat),
      (l.foldl (fun acc col => bmUpdate acc (sc col) col) a).2 = a.2
        ∨ ∃ c ∈ l, (l.foldl (fun acc col => bmUpdate acc (sc col) col) a).2 = some c := by
  intro l
  induction l with
  | nil => intro a; exact Or.inl rfl
  | cons x xs ih =>
    intro a
    simp only [List.foldl_cons]
    rcases ih (bmUpdate a (sc x) x) with h | h
    · rw [h]
      unfold bmUpdate
      split
      · exact Or.inr ⟨x, List.mem_cons_self x xs, rfl⟩
      · exact Or.inl rfl
    · rcases h with ⟨c, hc, heq⟩
      exact Or.inr ⟨c, List.mem_cons_of_mem x hc, heq⟩

/-- If some scanned score strictly beats the running best, a column gets
recorded. -/
theorem bmFold_beat (sc : Nat → Score) :
    ∀ (l : List Nat) (a : Score × Option Nat),
      (∃ c ∈ l, Score.blt a.1 (sc c) = true) →
      (l.foldl (fun acc col => bmUpdate acc (sc col) col) a).2 ≠ none := by
  intro l
  induction l with
  | nil => intro a h; rcases h with ⟨c, hc, _⟩; cases hc
  | cons x xs ih =>
    intro a h
    simp only [List.foldl_cons]
    by_cases hx : Score.blt a.1 (sc x) = true
    · apply bmFold_some
      unfold bmUpdate
      rw [if_pos hx]
      simp
    · rcases h with ⟨c, hc, hbeat⟩
      rcases List.mem_cons.mp hc with rfl | hc'
      · exact absurd hbeat hx
      · rw [show bmUpdate a (sc x) x = a from by simp [bmUpdate, hx]]
        exact ih a ⟨c, hc', hbeat⟩

/-- Conversely, starting with no recorded column, a column can only get
recorded if some scanned score strictly beats the initial best. -/
theorem bmFold_none_beat (sc : Nat → Score) :
    ∀ (l : List Nat) (best : Score),
      (l.foldl (fun acc col => bmUpdate acc (sc col) col) (best, none)).2 ≠ none →
      ∃ c ∈ l, Score.blt best (sc c) = true := by
  intro l
  induction l with
  | nil => intro best h; exact absurd rfl h
  | cons x xs ih =>
    intro best h
    by_cases hx : Score.blt best (sc x) = true
    · exact ⟨x, List.mem_cons_self x xs, hx⟩
    · simp only [List.foldl_cons] at h
      rw [show bmUpdate (best, none) (sc x) x = (best, none) from by
        simp [bmUpdate, hx]] at h
      rcases ih best h with ⟨c, hc, hbeat⟩
      exact ⟨c, List.mem_cons_of_mem x hc, hbeat⟩

/-- The running best stays strictly below `M` while all scanned scores are
strictly below `M`. -/
theorem bmFold_lt (sc : Nat → Score) (M : Score) :
    ∀ (l : List Nat) (a : Score × Option Nat),
      (∀ c ∈ l, Score.blt (sc c) M = true) → Score.blt a.1 M = true →
      Score.blt (l.foldl (fun acc col => bmUpdate acc (sc col) col) a).1 M = true := by
  intro l
  induction l with
  | nil => intro a _ ha; exact ha
  | cons x xs ih =>
    intro a h ha
    simp only [List.foldl_cons]
    apply ih _ (fun c hc => h c (List.mem_cons_of_mem x hc))
    unfold bmUpdate
    split
    · exact h x (List.mem_cons_self x xs)
    · exact ha

/-- The selection loop over `l1 ++ j :: l2` lands on `j` when every column
before `j` scores strictly below `M = sc j`, the initial best is strictly
below `M`, and no later column strictly exceeds `M`. -/
theorem bmFold_argmax (sc : Nat → Score) (M : Score) (l1 l2 : List Nat)
    (j : Nat) (a : Score × Option Nat)
    (h1 : ∀ c ∈ l1, Score.blt (sc c) M = true)
    (ha : Score.blt a.1 M = true)
    (hj : sc j = M)
    (h2 : ∀ c ∈ l2, Score.blt M (sc c) = false) :
    (l1 ++ j :: l2).foldl (fun acc col => bmUpdate acc (sc col) col) a
      = (M, some j) := by
  rw [List.foldl_append]
  have hlt := bmFold_lt sc M l1 a h1 ha
  simp only [List.foldl_cons]
  have hstep : bmUpdate (l1.foldl (fun acc col => bmUpdate acc (sc col) col) a)
      (sc j) j = (M, some j) := by
    rw [hj]
    show (if Score.blt (l1.foldl (fun acc col => bmUpdate acc (sc col) col) a).1 M
          = true
        then (M, some j)
        else l1.foldl (fun acc col => bmUpdate acc (sc col) col) a) = (M, some j)
    rw [if_pos hlt]
  rw [hstep]
  exact bmFold_no_update sc l2 (M, some j) h2

/-- Splitting the scanned columns at a valid column `j`. -/
theorem validCols_split {b : Board} {j : Nat} (hj : j < COLUMNS)
    (hv : is_valid_move b j = true) :
    validCols b
      = ((List.range j).filter (fun c => is_valid_move b c))
        ++ j :: ((List.range' (j+1) (COLUMNS - (j+1))).filter
            (fun c => is_valid_move b c)) := by
  unfold validCols
  have hsplit : List.range COLUMNS
      = List.range j ++ j :: List.range' (j+1) (COLUMNS - (j+1)) := by
    rw [List.range_eq_range', List.range_eq_range']
    conv_lhs => rw [show COLUMNS = (COLUMNS - j) + j from by omega]
    rw [← List.range'_append_1 0 j (COLUMNS - j)]
    congr 1
    rw [Nat.zero_add]
    rw [show COLUMNS - j = (COLUMNS - (j+1)) + 1 from by omega]
    rw [List.range'_succ]
  rw [hsplit, List.filter_append, List.filter_cons_of_pos hv]

/-! ### The spec-side formulation of win detection -/

/-- Modelled from the spec's words: there exist four collinear cells, all
holding `player`'s mark, in one of the four directions (horizontal,
vertical, down-right diagonal, up-right diagonal), with the whole four-cell
run inside the `ROWS × COLUMNS` grid.  This is the comparator for
`check_win`, written from the specification rather than from the loops of
the source. -/
def HasFourInARow (player : Nat) (b : Board) : Prop :=
  (∃ r c, r < ROWS ∧ c + 3 < COLUMNS ∧
    b r c = player ∧ b r (c+1) = player ∧
    b r (c+2) = player ∧ b r (c+3) = player) ∨
  (∃ r c, r + 3 < ROWS ∧ c < COLUMNS ∧
    b r c = player ∧ b (r+1) c = player ∧
    b (r+2) c = player ∧ b (r+3) c = player) ∨
  (∃ r c, r + 3 < ROWS ∧ c + 3 < COLUMNS ∧
    b r c = player ∧ b (r+1) (c+1) = player ∧
    b (r+2) (c+2) = player ∧ b (r+3) (c+3) = player) ∨
  (∃ r c, 3 ≤ r ∧ r < ROWS ∧ c + 3 < COLUMNS ∧
    b r c = player ∧ b (r-1) (c+1) = player ∧
    b (r-2) (c+2) = player ∧ b (r-3) (c+3) = player)

/-- The scanning loops of `check_win` decide exactly the spec-side
four-in-a-row predicate, for every marker value and every board. -/
theorem check_win_iff (player : Nat) (b : Board) :
    check_win player b = true ↔ HasFourInARow player b := by
  have hR : ROWS = 6 := rfl
  have hC : COLUMNS = 7 := rfl
  unfold check_win HasFourInARow
  simp only [Bool.or_eq_true, List.any_eq_true, List.mem_range, List.mem_range'_1,
    Bool.and_eq_true, beq_iff_eq, and_assoc]
  constructor
  · rintro (((⟨r, hr, c, hc, h1, h2, h3, h4⟩ | ⟨c, hc, r, hr, h1, h2, h3, h4⟩) |
      ⟨r, hr, c, hc, h1, h2, h3, h4⟩) | ⟨r, hr3, hr, c, hc, h1, h2, h3, h4⟩)
    · exact Or.inl ⟨r, c, by omega, by omega, h1, h2, h3, h4⟩
    · exact Or.inr (Or.inl ⟨r, c, by omega, by omega, h1, h2, h3, h4⟩)
    · exact Or.inr (Or.inr (Or.inl ⟨r, c, by omega, by omega, h1, h2, h3, h4⟩))
    · exact Or.inr (Or.inr (Or.inr ⟨r, c, by omega, by omega, by omega, h1, h2, h3, h4⟩))
  · rintro (⟨r, c, hr, hc, h1, h2, h3, h4⟩ | ⟨r, c, hr, hc, h1, h2, h3, h4⟩ |
      ⟨r, c, hr, hc, h1, h2, h3, h4⟩ | ⟨r, c, hr3, hr, hc, h1, h2, h3, h4⟩)
    · exact Or.inl (Or.inl (Or.inl ⟨r, by omega, c, by omega, h1, h2, h3, h4⟩))
    · exact Or.inl (Or.inl (Or.inr ⟨c, by omega, r, by omega, h1, h2, h3, h4⟩))
    · exact Or.inl (Or.inr ⟨r, by omega, c, by omega, h1, h2, h3, h4⟩)
    · exact Or.inr ⟨r, by omega, by omega, c, by omega, h1, h2, h3, h4⟩

/-! ### The gravity invariant of reachable boards -/

/-- The "no floating pieces" invariant of boards reachable through
`mark_square`: whenever a cell is Empty, the cell above it (smaller row
index) in the same column is also Empty. -/
def Gravity (b : Board) : Prop :=
  ∀ r, r < ROWS - 1 → ∀ c, c < COLUMNS → b (r+1) c = 0 → b r c = 0

instance (b : Board) : Decidable (Gravity b) :=
  decidable_of_iff
    (∀ r, r < ROWS - 1 → ∀ c, c < COLUMNS → b (r+1) c = 0 → b r c = 0) Iff.rfl

/-- Under gravity, an Empty cell anywhere in a column forces an Empty top
cell. -/
theorem top_empty_of_empty {b : Board} (hg : Gravity b) {col : Nat}
    (hcol : col < COLUMNS) :
    ∀ r, r < ROWS → b r col = 0 → b 0 col = 0 := by
  intro r
  induction r with
  | zero => intro _ h; exact h
  | succ k ih =>
    intro hk h
    have hR : ROWS = 6 := rfl
    exact ih (by omega) (hg k (by omega) col hcol h)

/-! ### Raw numpy indexing for `is_valid_move` on arbitrary integers -/

/-- Integer indexing into a numpy axis of length `n`: indices in `[0, n)`
are used directly, indices in `[-n, 0)` wrap once (`i + n`), and anything
else raises `IndexError` (modelled as `none`). -/
def npIndex (n : Nat) (i : Int) : Option Nat :=
  if 0 ≤ i ∧ i < (n : Int) then some i.toNat
  else if -(n : Int) ≤ i ∧ i < 0 then some (i + n).toNat
  else none

/-- `is_valid_move(col)` as the Python interpreter executes it for an
arbitrary integer `col`: evaluate `board[0][col]` with numpy index
semantics and compare with `0`; `none` models the raised `IndexError`. -/
def is_valid_move_int (b : Board) (col : Int) : Option Bool :=
  (npIndex COLUMNS col).map (fun c => b 0 c == 0)

/-! ### The default argument of `check_win` across a restart -/

/-- The observable global state of the program, keeping track of the numpy
array captured by `check_win`'s default argument `check_board=board`:
`board` is the array the global name is bound to, `original` is the array
captured at definition time (line 82 executes while `board` is still the
array allocated at line 33), and `aliased` records whether the two are
still the same object. -/
structure EngineState where
  board : Board
  original : Board
  aliased : Bool

/-- Program start: the global `board` and the captured default are the same
freshly zeroed array. -/
def initState : EngineState := ⟨emptyBoard, emptyBoard, true⟩

/-- `mark_square(col, player)` mutates the array bound to the global name in
place; while that array is still the captured one, the default argument
sees the same mutation. -/
def markState (s : EngineState) (col player : Nat) : EngineState :=
  if s.aliased then
    ⟨mark_square s.board col player, mark_square s.board col player, true⟩
  else
    ⟨mark_square s.board col player, s.original, false⟩

/-- `restart_game()` rebinds the global name to a fresh zeroed array; the
captured default argument still references the old array. -/
def restartState (s : EngineState) : EngineState :=
  ⟨restart_game, s.original, false⟩

/-- `check_win(player)` called without an explicit board — as the main loop
does — reads the array captured at definition time. -/
def check_win_default (s : EngineState) (player : Nat) : Bool :=
  check_win player s.original

/-! ### Concrete test positions -/

/-- A position (computer `2` to move) in which only columns `0` and `6` are
open and either move lets the human complete a vertical four: every child
of the maximizing root scores `-∞`. -/
def allLosingBoard : Board := mkBoard [
  [0, 2, 1, 2, 1, 2, 0],
  [1, 1, 2, 1, 2, 1, 1],
  [1, 1, 2, 1, 2, 1, 1],
  [1, 2, 1, 2, 1, 2, 1],
  [2, 2, 1, 2, 1, 2, 2],
  [2, 1, 2, 1, 2, 1, 2]]

/-- A position (computer `2` to move) in which column `0` completes a
vertical four for the computer (score `+∞`) and column `6` leads to a
draw. -/
def winInOneBoard : Board := mkBoard [
  [0, 2, 1, 2, 1, 2, 0],
  [2, 1, 2, 1, 2, 1, 1],
  [2, 1, 2, 1, 2, 1, 1],
  [2, 2, 1, 2, 1, 2, 1],
  [1, 2, 1, 2, 1, 2, 2],
  [1, 1, 2, 1, 2, 1, 2]]

/-- Three marks in a row for player `1` with a gap before the fourth. -/
def gapBoard : Board := mkBoard [
  [0, 0, 0, 0, 0, 0, 0],
  [0, 0, 0, 0, 0, 0, 0],
  [0, 0, 0, 0, 0, 0, 0],
  [0, 0, 0, 0, 0, 0, 0],
  [0, 0, 0, 0, 0, 0, 0],
  [1, 1, 1, 0, 1, 0, 0]]

/-- A game in which the human stacks four marks in column `3` (winning)
while the computer answers in columns `0`, `0` and `1`, played from the
program start without any restart. -/
def wonGameState : EngineState :=
  markState (markState (markState (markState (markState (markState (markState
    initState 3 1) 0 2) 3 1) 0 2) 3 1) 1 2) 3 1

/-! ### Claim C1 -/

/-- **C1, counterexample.**  On `allLosingBoard` the board is not full and
columns `0` and `6` are valid moves, yet `best_move` returns the failure
indicator and commits nothing: every speculative move scores `-∞`, which
never exceeds the `-1000` loop sentinel, so `move` stays `None`. -/
theorem best_move_fails_on_losing_board :
    is_board_full allLosingBoard = false ∧
    is_valid_move allLosingBoard 0 = true ∧
    (best_move allLosingBoard).1 = false ∧
    (best_move allLosingBoard).2 = allLosingBoard :=
  ⟨rfl, rfl, rfl, rfl⟩

/-- **C1, amended.**  `best_move` succeeds exactly when the board is not full
and some valid column's search score strictly exceeds the `-1000` sentinel;
on success it commits a move for the computer in some valid column, and on
failure it commits nothing. -/
theorem best_move_success_iff (b : Board) :
    ((best_move b).1 = true ↔
      (is_board_full b = false ∧ ∃ col, col < COLUMNS ∧
        is_valid_move b col = true ∧
        Score.blt (Score.num (-1000)) (minimax (mark_square b col 2) 0 false)
          = true)) ∧
    ((best_move b).1 = true →
      ∃ col, col < COLUMNS ∧ is_valid_move b col = true ∧
        (best_move b).2 = mark_square b col 2) ∧
    ((best_move b).1 = false → (best_move b).2 = b) := by
  by_cases hf : is_board_full b = true
  · have hbm : best_move b = (false, b) := by
      unfold best_move
      rw [if_pos hf]
    rw [hbm]
    refine ⟨⟨fun h => by simp at h, ?_⟩, fun h => by simp at h, fun _ => rfl⟩
    rintro ⟨hfull, _⟩
    rw [hf] at hfull
    cases hfull
  · have hf' : is_board_full b = false := by
      rcases h : is_board_full b with _ | _
      · rfl
      · exact absurd h hf
    have hbm := best_move_eq hf'
    rcases hmv : ((validCols b).foldl
        (fun acc col => bmUpdate acc (minimax (mark_square b col 2) 0 false) col)
        (Score.num (-1000), (none : Option Nat))).2 with _ | j
    · have hbm2 : best_move b = (false, b) := by rw [hbm, hmv]
      rw [hbm2]
      refine ⟨⟨fun h => by simp at h, ?_⟩, fun h => by simp at h, fun _ => rfl⟩
      rintro ⟨_, col, hcol, hvalid, hbeat⟩
      exact absurd hmv (bmFold_beat
        (fun col => minimax (mark_square b col 2) 0 false)
        (validCols b) (Score.num (-1000), none)
        ⟨col, mem_validCols.mpr ⟨hcol, hvalid⟩, hbeat⟩)
    · have hbm2 : best_move b = (true, mark_square b j 2) := by rw [hbm, hmv]
      have hjmem : j ∈ validCols b := by
        rcases bmFold_origin (fun col => minimax (mark_square b col 2) 0 false)
            (validCols b) (Score.num (-1000), (none : Option Nat))
          with h | ⟨c, hc, heq⟩
        · rw [hmv] at h
          exact absurd h (by simp)
        · rw [hmv] at heq
          have hcj := Option.some.inj heq
          subst hcj
          exact hc
      obtain ⟨hjcol, hjvalid⟩ := mem_validCols.mp hjmem
      have hbeat := bmFold_none_beat
        (fun col => minimax (mark_square b col 2) 0 false)
        (validCols b) (Score.num (-1000))
        (by rw [hmv]; exact Option.some_ne_none j)
      refine ⟨⟨fun _ => ?_, fun _ => by rw [hbm2]⟩, fun _ => ?_, fun hfalse => ?_⟩
      · rcases hbeat with ⟨c, hc, hb⟩
        obtain ⟨hccol, hcvalid⟩ := mem_validCols.mp hc
        exact ⟨hf', c, hccol, hcvalid, hb⟩
      · exact ⟨j, hjcol, hjvalid, by rw [hbm2]⟩
      · rw [hbm2] at hfalse
        simp at hfalse

/-- **C1, witness.**  On `winInOneBoard`, `best_move` reports success and
commits a move in a valid column. -/
theorem best_move_success_iff_witness :
    ∃ col, col < COLUMNS ∧ is_valid_move winInOneBoard col = true ∧
      (best_move winInOneBoard).2 = mark_square winInOneBoard col 2 :=
  (best_move_success_iff winInOneBoard).2.1 (by decide)

/-! ### Claim C2 -/

/-- **C2, counterexample.**  On `allLosingBoard` (non-terminal, with the two
valid columns `0` and `6`) both recursively computed child scores are `-∞`,
yet the maximizing `minimax` returns the loop sentinel `-1000` — a value
that is neither the maximum nor any member of the child scores. -/
theorem minimax_not_child_max_on_losing_board :
    minimax allLosingBoard 0 true = Score.num (-1000) ∧
    childScores allLosingBoard 0 true = [Score.negInf, Score.negInf] ∧
    minimax allLosingBoard 0 true ∉ childScores allLosingBoard 0 true :=
  ⟨by decide, by decide, by decide⟩

/-- **C2, amended.**  For every non-terminal board, the maximizing `minimax`
value is an upper bound of all recursively computed child scores and is
either one of them or the `-1000` sentinel (returned exactly when every
child score falls below `-1000`, i.e. is `-∞`); dually, the minimizing
value is a lower bound and is a child score or the `1000` sentinel. -/
theorem minimax_clamped_extrema (b : Board) (d : Nat)
    (h2 : check_win 2 b = false) (h1 : check_win 1 b = false)
    (hf : is_board_full b = false) :
    ((∀ s ∈ childScores b d true, Score.ble s (minimax b d true) = true) ∧
      (minimax b d true ∈ childScores b d true
        ∨ minimax b d true = Score.num (-1000))) ∧
    ((∀ s ∈ childScores b d false, Score.ble (minimax b d false) s = true) ∧
      (minimax b d false ∈ childScores b d false
        ∨ minimax b d false = Score.num 1000)) := by
  refine ⟨⟨?_, ?_⟩, ?_, ?_⟩
  · intro s hs
    rw [minimax_max_node d h2 h1 hf]
    exact foldl_max_ub (childScores b d true) (Score.num (-1000)) s hs
  · rw [minimax_max_node d h2 h1 hf]
    rcases foldl_max_mem (childScores b d true) (Score.num (-1000)) with h | h
    · exact Or.inr h
    · exact Or.inl h
  · intro s hs
    rw [minimax_min_node d h2 h1 hf]
    exact foldl_min_lb (childScores b d false) (Score.num 1000) s hs
  · rw [minimax_min_node d h2 h1 hf]
    rcases foldl_min_mem (childScores b d false) (Score.num 1000) with h | h
    · exact Or.inr h
    · exact Or.inl h

/-- **C2, witness.**  The amended characterization instantiated on the
concrete non-terminal position `allLosingBoard`. -/
theorem minimax_clamped_extrema_witness :
    (check_win 2 allLosingBoard = false ∧ check_win 1 allLosingBoard = false ∧
      is_board_full allLosingBoard = false) ∧
    (((∀ s ∈ childScores allLosingBoard 0 true,
        Score.ble s (minimax allLosingBoard 0 true) = true) ∧
      (minimax allLosingBoard 0 true ∈ childScores allLosingBoard 0 true
        ∨ minimax allLosingBoard 0 true = Score.num (-1000))) ∧
    ((∀ s ∈ childScores allLosingBoard 0 false,
        Score.ble (minimax allLosingBoard 0 false) s = true) ∧
      (minimax allLosingBoard 0 false ∈ childScores allLosingBoard 0 false
        ∨ minimax allLosingBoard 0 false = Score.num 1000))) :=
  ⟨⟨by decide, by decide, by decide⟩,
    minimax_clamped_extrema allLosingBoard 0 (by decide) (by decide) (by decide)⟩

/-! ### Claim C3 -/

/-- **C3, code bug.**  After a restart the fresh board is all-Empty: every
column is a valid move, the board is not full, and `check_win` applied to
the fresh board finds nothing.  But `check_win` *as the main loop calls it*,
with its default `check_board=board` argument, still reads the array
captured when line 82 was executed — the pre-restart array, on which player
`1` has four in a row in column `3` — and returns `true` for player `1`
even though the spec requires `false` after a reset. -/
theorem check_win_default_stale_after_restart :
    (∀ col, col < COLUMNS →
      is_valid_move (restartState wonGameState).board col = true) ∧
    is_board_full (restartState wonGameState).board = false ∧
    (restartState wonGameState).board = emptyBoard ∧
    check_win 1 (restartState wonGameState).board = false ∧
    check_win 2 (restartState wonGameState).board = false ∧
    check_win_default (restartState wonGameState) 1 = true :=
  ⟨by decide, by decide, rfl, by decide, by decide, by decide⟩

/-! ### Claim C4 -/

/-- **C4, confirmed.**  The speculative place-then-retract discipline of the
search restores the board bit-for-bit: placing any mark on the row returned
by `get_next_open_row` and then writing `0` back to that cell yields a
board extensionally equal to the original.  (In this pure embedding the
recursive `minimax` call itself receives the speculative board by value and
cannot alter the caller's board, so the frame condition of the claim
reduces exactly to this restoration identity, which both `minimax` loops
and `best_move` perform at lines 131–133, 141–143 and 156–158.) -/
theorem place_then_retract_restores (b : Board) (col row p : Nat)
    (h : get_next_open_row b col = some row) :
    updateBoard (updateBoard b row col p) row col 0 = b := by
  obtain ⟨hr, h0⟩ := gnor_some_prop h
  funext r c
  show (if r = row ∧ c = col then 0
      else if r = row ∧ c = col then p else b r c) = b r c
  by_cases hcase : r = row ∧ c = col
  · rw [if_pos hcase, hcase.1, hcase.2, h0]
  · rw [if_neg hcase, if_neg hcase]

/-- **C4, witness.**  Restoration at a concrete board and column. -/
theorem place_then_retract_restores_witness :
    get_next_open_row emptyBoard 3 = some 5 ∧
    updateBoard (updateBoard emptyBoard 5 3 2) 5 3 0 = emptyBoard :=
  ⟨by decide, place_then_retract_restores emptyBoard 3 5 2 (by decide)⟩

/-! ### Claim C5 -/

/-- **C5, counterexample.**  On `allLosingBoard` the two valid columns `0`
and `6` attain the equal greatest minimax score (`-∞`), yet `best_move`
selects no column at all — it returns the failure indicator and leaves the
board unchanged — because a score must strictly exceed the `-1000` sentinel
before the best column is ever updated. -/
theorem best_move_tie_no_selection :
    is_valid_move allLosingBoard 0 = true ∧
    is_valid_move allLosingBoard 6 = true ∧
    minimax (mark_square allLosingBoard 0 2) 0 false
      = minimax (mark_square allLosingBoard 6 2) 0 false ∧
    (∀ c, c < COLUMNS → is_valid_move allLosingBoard c = true →
      c = 0 ∨ c = 6) ∧
    best_move allLosingBoard = (false, allLosingBoard) :=
  ⟨by decide, by decide, by decide, by decide, rfl⟩

/-- **C5, amended.**  Whenever the greatest minimax score `M` over the valid
columns strictly exceeds the `-1000` sentinel, `best_move` selects the
lowest-indexed valid column attaining `M` (so in particular ties between
equally scored columns are broken toward the lower index, because `>` not
`>=` is used to update the best); when no valid column exceeds the
sentinel, no column is selected at all. -/
theorem best_move_picks_first_max (b : Board) (j : Nat) (M : Score)
    (hj : j < COLUMNS) (hvj : is_valid_move b j = true)
    (hMj : minimax (mark_square b j 2) 0 false = M)
    (hMpos : Score.blt (Score.num (-1000)) M = true)
    (hfirst : ∀ c, c < j → is_valid_move b c = true →
      Score.blt (minimax (mark_square b c 2) 0 false) M = true)
    (hmax : ∀ c, c < COLUMNS → is_valid_move b c = true →
      Score.blt M (minimax (mark_square b c 2) 0 false) = false) :
    best_move b = (true, mark_square b j 2) := by
  have hf := not_full_of_valid hj hvj
  have hA : ∀ c ∈ (List.range j).filter (fun c => is_valid_move b c),
      Score.blt (minimax (mark_square b c 2) 0 false) M = true := by
    intro c hc
    obtain ⟨hcr, hcv⟩ := List.mem_filter.mp hc
    exact hfirst c (List.mem_range.mp hcr) hcv
  have hB : ∀ c ∈ (List.range' (j+1) (COLUMNS - (j+1))).filter
      (fun c => is_valid_move b c),
      Score.blt M (minimax (mark_square b c 2) 0 false) = false := by
    intro c hc
    obtain ⟨hcr, hcv⟩ := List.mem_filter.mp hc
    obtain ⟨hc1, hc2⟩ := List.mem_range'_1.mp hcr
    exact hmax c (by omega) hcv
  have hfold := bmFold_argmax (fun col => minimax (mark_square b col 2) 0 false)
    M ((List.range j).filter (fun c => is_valid_move b c))
    ((List.range' (j+1) (COLUMNS - (j+1))).filter (fun c => is_valid_move b c))
    j (Score.num (-1000), (none : Option Nat)) hA hMpos hMj hB
  rw [best_move_eq hf, validCols_split hj hvj]
  rw [show (((List.range j).filter (fun c => is_valid_move b c))
      ++ j :: ((List.range' (j+1) (COLUMNS - (j+1))).filter
        (fun c => is_valid_move b c))).foldl
      (fun acc col => bmUpdate acc (minimax (mark_square b col 2) 0 false) col)
      (Score.num (-1000), (none : Option Nat)) = (M, some j) from hfold]

/-- **C5, witness.**  On `winInOneBoard` the winning column `0` is the first
column attaining the greatest score `+∞`, and `best_move` commits it. -/
theorem best_move_picks_first_max_witness :
    best_move winInOneBoard = (true, mark_square winInOneBoard 0 2) :=
  best_move_picks_first_max winInOneBoard 0 Score.posInf (by decide) (by decide)
    (by decide) (by decide) (by decide) (by decide)

/-! ### Claim C6 -/

/-- **C6, confirmed.**  For every player mark and every board, `check_win`
returns `true` exactly when four collinear cells holding that mark exist in
one of the four directions with the whole run in bounds; in particular
three in a row with a gap (as on `gapBoard`) does not win. -/
theorem check_win_four_in_a_row :
    (∀ (player : Nat) (b : Board),
      check_win player b = true ↔ HasFourInARow player b) ∧
    check_win 1 gapBoard = false :=
  ⟨check_win_iff, by decide⟩

/-! ### Claim C7 -/

/-- **C7, counterexample.**  `is_valid_move` does not return `false` for
out-of-range columns: for `col = 7` the numpy access `board[0][7]` raises
`IndexError` (modelled as `none`), and for `col = -1` numpy wraps the index
to column `6` and (on the empty board) returns `true`. -/
theorem is_valid_move_int_out_of_range :
    is_valid_move_int emptyBoard 7 = none ∧
    is_valid_move_int emptyBoard (-1) = some true :=
  ⟨by decide, by decide⟩

/-- **C7, amended.**  For `0 ≤ col < COLUMNS` the call returns, without
error, exactly the top-cell Emptiness test `is_valid_move`; for
`-COLUMNS ≤ col < 0` numpy wraps the index once and the call tests column
`col + COLUMNS` instead of returning `false`; for every other integer the
access raises `IndexError` instead of returning `false`. -/
theorem is_valid_move_int_eq (b : Board) (col : Int) :
    is_valid_move_int b col
      = if 0 ≤ col ∧ col < (COLUMNS : Int) then
          some (is_valid_move b col.toNat)
        else if -(COLUMNS : Int) ≤ col ∧ col < 0 then
          some (is_valid_move b (col + COLUMNS).toNat)
        else none := by
  unfold is_valid_move_int npIndex is_valid_move
  by_cases h1 : 0 ≤ col ∧ col < (COLUMNS : Int)
  · rw [if_pos h1, if_pos h1]
    rfl
  · rw [if_neg h1, if_neg h1]
    by_cases h2 : -(COLUMNS : Int) ≤ col ∧ col < 0
    · rw [if_pos h2, if_pos h2]
      rfl
    · rw [if_neg h2, if_neg h2]
      rfl

/-! ### Claim C8 -/

/-- **C8, counterexample.**  On an arbitrary cell assignment the equivalence
fails: with a single mark floating at the top of column `0` and Empty cells
below it, `is_valid_move 0` is `false` (the top cell is occupied) while
`get_next_open_row 0` still returns row `5` (the bottom cell is Empty). -/
theorem valid_gnor_mismatch_on_floating_board :
    is_valid_move (updateBoard emptyBoard 0 0 1) 0 = false ∧
    get_next_open_row (updateBoard emptyBoard 0 0 1) 0 = some 5 :=
  ⟨by decide, by decide⟩

/-- **C8, amended.**  On boards satisfying the gravity invariant (no Empty
cell sits below an occupied one in the same column — true of every board
reachable through `mark_square`), `is_valid_move col` holds exactly when
`get_next_open_row col` is not the absent sentinel; on arbitrary
assignments only the left-to-right direction survives. -/
theorem valid_iff_open_row_under_gravity (b : Board) (col : Nat)
    (hg : Gravity b) (hcol : col < COLUMNS) :
    is_valid_move b col = true ↔ get_next_open_row b col ≠ none := by
  constructor
  · intro h
    obtain ⟨row, hrow⟩ := gnor_exists_of_valid h
    rw [hrow]
    exact Option.some_ne_none row
  · intro h
    rcases hrow : get_next_open_row b col with _ | row
    · exact absurd hrow h
    · obtain ⟨hr, h0⟩ := gnor_some_prop hrow
      unfold is_valid_move
      rw [top_empty_of_empty hg hcol row hr h0]
      rfl

/-- **C8, witness.**  The equivalence at the empty board and column `0`. -/
theorem valid_iff_open_row_witness :
    is_valid_move emptyBoard 0 = true ↔ get_next_open_row emptyBoard 0 ≠ none :=
  valid_iff_open_row_under_gravity emptyBoard 0 (by decide) (by decide)

/-! ### Claim C9 -/

/-- **C9, confirmed.**  The minimax score is independent of the `depth`
argument: the source increments `depth` on every recursive call but never
reads it for bounding or scoring, so any two depths give equal values. -/
theorem minimax_ignores_depth (b : Board) (d1 d2 : Nat) (m : Bool) :
    minimax b d1 m = minimax b d2 m :=
  minimax_depth_congr b d1 d2 m

/-! ### Claim C10 -/

/-- **C10, confirmed.**  `check_win` pattern-matches any marker value, so
applied to the Empty marker `0` it returns `true` on any board with four
aligned Empty cells — in particular on the all-Empty board — while the
"zero pieces never win" guarantee holds for any marker (hence for the
player marks `1` and `2`) only because a board with no cell holding that
marker has no four-in-a-row of it. -/
theorem check_win_empty_marker :
    (∀ b : Board, HasFourInARow 0 b → check_win 0 b = true) ∧
    check_win 0 emptyBoard = true ∧
    (∀ (p : Nat) (b : Board),
      (∀ r, r < ROWS → ∀ c, c < COLUMNS → b r c ≠ p) →
      check_win p b = false) := by
  refine ⟨fun b h => (check_win_iff 0 b).mpr h, by decide, ?_⟩
  intro p b h
  rcases hcw : check_win p b with _ | _
  · rfl
  · exfalso
    rcases (check_win_iff p b).mp hcw with
      (⟨r, c, hr, hc, h1, _, _, _⟩ | ⟨r, c, hr, hc, h1, _, _, _⟩ |
        ⟨r, c, hr, hc, h1, _, _, _⟩ | ⟨r, c, hr3, hr, hc, h1, _, _, _⟩)
    · exact h r (by omega) c (by omega) h1
    · exact h r (by omega) c (by omega) h1
    · exact h r (by omega) c (by omega) h1
    · exact h r (by omega) c (by omega) h1

/-- **C10, witness.**  The Empty marker "wins" on the all-Empty board, while
player `1` with zero pieces does not. -/
theorem check_win_empty_marker_witness :
    check_win 0 emptyBoard = true ∧ check_win 1 emptyBoard = false :=
  ⟨check_win_empty_marker.1 emptyBoard
      (Or.inl ⟨0, 0, by decide, by decide, rfl, rfl, rfl, rfl⟩),
    check_win_empty_marker.2.2 1 emptyBoard (by decide)⟩
